import Mathlib

/-
Shallow embedding of the speech-to-text converter's data-access layer
(src/db/tables.ts and src/src/actions/index.ts).

The two tables are modelled as Lean structures; the database is a pair of
row lists.  Each Astro action handler becomes a Lean function taking the
request's authenticated user (`Option String`, mirroring
`context.locals.user`), the handler input, and the database state, and
returning the typed result together with the resulting database state.
`crypto.randomUUID()` is modelled by passing the generated identifier(s)
in as parameters, and the `NOW` column default by a `now : Nat` parameter.
Zod input schemas become boolean validity predicates; the action wrapper
(validate, then run the handler) is modelled explicitly where a claim is
about validation.
-/

namespace STT

/-- Row of the SttJobs table (db/tables.ts).  `number` columns are modelled
as `Rat` (JS numbers used only with comparisons here), `date` columns as
`Nat` timestamps, optional columns as `Option`. -/
structure Job where
  id : String
  userId : String
  inputAudioUrl : String
  audioFormat : Option String := none
  language : Option String := none
  modelName : Option String := none
  transcriptText : Option String := none
  durationSeconds : Option Rat := none
  wordCount : Option Rat := none
  status : Option String := none
  errorMessage : Option String := none
  createdAt : Nat := 0
  completedAt : Option Nat := none
  deriving Repr, DecidableEq

/-- Row of the SttSegments table (db/tables.ts). -/
structure Segment where
  id : String
  jobId : String
  orderIndex : Rat
  startTimeSeconds : Option Rat := none
  endTimeSeconds : Option Rat := none
  text : String
  speakerLabel : Option String := none
  confidence : Option Rat := none
  createdAt : Nat := 0
  deriving Repr, DecidableEq

/-- Database state: the two tables. -/
structure DB where
  sttJobs : List Job
  sttSegments : List Segment
  deriving Repr, DecidableEq

/-- Machine-readable error codes thrown by the handlers (ActionError codes). -/
inductive ErrorCode where
  | UNAUTHORIZED
  | NOT_FOUND
  deriving Repr, DecidableEq

/-- Typed error carrying a code and a human-readable message. -/
structure ActionError where
  code : ErrorCode
  message : String
  deriving Repr, DecidableEq

/-- The error thrown by `requireUser` when no user is in the context. -/
def unauthorizedError : ActionError :=
  { code := .UNAUTHORIZED
    message := "You must be signed in to perform this action." }

/-- The error thrown when the job lookup under the ownership filter is empty. -/
def notFoundError : ActionError :=
  { code := .NOT_FOUND, message := "Speech-to-text job not found." }

/-- `requireUser` (actions/index.ts lines 6-18): extract the authenticated
user from the context or throw UNAUTHORIZED. -/
def requireUser (ctxUser : Option String) : Except ActionError String :=
  match ctxUser with
  | none => .error unauthorizedError
  | some u => .ok u

/-- The select used by update/addSegments/get:
`db.select().from(SttJobs).where(and(eq(SttJobs.id, id), eq(SttJobs.userId, userId))).get()`. -/
def findOwnedJob (st : DB) (id userId : String) : Option Job :=
  st.sttJobs.find? (fun j => j.id == id && j.userId == userId)

/-- Input shape of createSttJob (after schema validation). -/
structure CreateInput where
  inputAudioUrl : String
  audioFormat : Option String := none
  language : Option String := none
  modelName : Option String := none
  deriving Repr, DecidableEq

/-- createSttJob handler (actions/index.ts lines 28-46): insert one new job
row owned by the authenticated user with status "queued", return its id.
`freshId` stands for `crypto.randomUUID()`, `now` for the createdAt default. -/
def createSttJob (ctxUser : Option String) (freshId : String) (now : Nat)
    (input : CreateInput) (st : DB) : Except ActionError String × DB :=
  match requireUser ctxUser with
  | .error e => (.error e, st)
  | .ok user =>
    let newJob : Job :=
      { id := freshId
        userId := user
        inputAudioUrl := input.inputAudioUrl
        audioFormat := input.audioFormat
        language := input.language
        modelName := input.modelName
        transcriptText := none
        durationSeconds := none
        wordCount := none
        status := some "queued"
        errorMessage := none
        createdAt := now
        completedAt := none }
    (.ok freshId, { st with sttJobs := st.sttJobs ++ [newJob] })

/-- Input shape of updateSttJob (after schema validation). -/
structure UpdateInput where
  id : String
  status : Option String := none
  transcriptText : Option String := none
  errorMessage : Option String := none
  durationSeconds : Option Rat := none
  wordCount : Option Rat := none
  completedAt : Option Nat := none
  deriving Repr, DecidableEq

/-- The six columns written by the update statement. -/
structure JobUpdateFields where
  status : Option String
  transcriptText : Option String
  errorMessage : Option String
  durationSeconds : Option Rat
  wordCount : Option Rat
  completedAt : Option Nat
  deriving Repr, DecidableEq

/-- `fieldsToUpdate` object (actions/index.ts lines 75-82): each field is
`input.field ?? job.field` (JS nullish coalescing on the optional input). -/
def fieldsToUpdate (input : UpdateInput) (job : Job) : JobUpdateFields :=
  { status := input.status.or job.status
    transcriptText := input.transcriptText.or job.transcriptText
    errorMessage := input.errorMessage.or job.errorMessage
    durationSeconds := input.durationSeconds.or job.durationSeconds
    wordCount := input.wordCount.or job.wordCount
    completedAt := input.completedAt.or job.completedAt }

/-- Effect of `db.update(SttJobs).set(fieldsToUpdate)` on one row: the six
listed columns are overwritten, every other column is untouched. -/
def setJobFields (f : JobUpdateFields) (j : Job) : Job :=
  { j with
    status := f.status
    transcriptText := f.transcriptText
    errorMessage := f.errorMessage
    durationSeconds := f.durationSeconds
    wordCount := f.wordCount
    completedAt := f.completedAt }

/-- updateSttJob handler (actions/index.ts lines 59-93): look up the job
under (id AND userId), NOT_FOUND if absent, else merge-update and apply to
the rows matching `eq(SttJobs.id, job.id)`. -/
def updateSttJob (ctxUser : Option String) (input : UpdateInput) (st : DB) :
    Except ActionError String × DB :=
  match requireUser ctxUser with
  | .error e => (.error e, st)
  | .ok user =>
    match findOwnedJob st input.id user with
    | none => (.error notFoundError, st)
    | some job =>
      let f := fieldsToUpdate input job
      (.ok job.id,
        { st with
          sttJobs := st.sttJobs.map
            (fun j => if j.id == job.id then setJobFields f j else j) })

/-- One element of the `segments` array input of addSttSegments. -/
structure SegmentInput where
  orderIndex : Rat
  text : String
  startTimeSeconds : Option Rat := none
  endTimeSeconds : Option Rat := none
  speakerLabel : Option String := none
  confidence : Option Rat := none
  deriving Repr, DecidableEq

/-- Input shape of addSttSegments (after schema validation). -/
structure AddSegmentsInput where
  jobId : String
  segments : List SegmentInput
  deriving Repr, DecidableEq

/-- The `values` array built by addSttSegments (actions/index.ts lines
128-137): one row per descriptor, fresh id per row (`freshId` applied to the
row's position models `crypto.randomUUID()` per element), fields copied. -/
def mkSegmentRows (freshId : Nat → String) (jobId : String) (now : Nat) :
    Nat → List SegmentInput → List Segment
  | _, [] => []
  | n, s :: rest =>
    { id := freshId n
      jobId := jobId
      orderIndex := s.orderIndex
      startTimeSeconds := s.startTimeSeconds
      endTimeSeconds := s.endTimeSeconds
      text := s.text
      speakerLabel := s.speakerLabel
      confidence := s.confidence
      createdAt := now } :: mkSegmentRows freshId jobId now (n + 1) rest

/-- addSttSegments handler (actions/index.ts lines 112-145): ownership check,
then batch insert of one row per descriptor, returning the inserted count. -/
def addSttSegments (ctxUser : Option String) (freshId : Nat → String) (now : Nat)
    (input : AddSegmentsInput) (st : DB) : Except ActionError Nat × DB :=
  match requireUser ctxUser with
  | .error e => (.error e, st)
  | .ok user =>
    match findOwnedJob st input.jobId user with
    | none => (.error notFoundError, st)
    | some _job =>
      let values := mkSegmentRows freshId input.jobId now 0 input.segments
      (.ok values.length, { st with sttSegments := st.sttSegments ++ values })

/-- Input shape of getSttJobWithSegments. -/
structure GetInput where
  id : String
  deriving Repr, DecidableEq

/-- getSttJobWithSegments handler (actions/index.ts lines 152-179):
ownership-filtered job lookup, then all segments of the job ordered
ascending by orderIndex (`orderBy(asc(SttSegments.orderIndex))`). -/
def getSttJobWithSegments (ctxUser : Option String) (input : GetInput) (st : DB) :
    Except ActionError (Job × List Segment) × DB :=
  match requireUser ctxUser with
  | .error e => (.error e, st)
  | .ok user =>
    match findOwnedJob st input.id user with
    | none => (.error notFoundError, st)
    | some job =>
      let segments :=
        (st.sttSegments.filter (fun s => s.jobId == job.id)).mergeSort
          (fun a b => decide (a.orderIndex ≤ b.orderIndex))
      (.ok (job, segments), st)

/-- Input shape of listMySttJobs (after schema validation; the page numbers
are positive integers after `z.number().int().positive()`, so `Nat`). -/
structure ListInput where
  page : Nat
  pageSize : Nat
  deriving Repr, DecidableEq

/-- listMySttJobs handler (actions/index.ts lines 187-207): the user's jobs
ordered by createdAt descending, offset `(page-1)*pageSize`, limit
`pageSize`; the returned total is the length of the returned page. -/
def listMySttJobs (ctxUser : Option String) (input : ListInput) (st : DB) :
    Except ActionError (List Job × Nat) × DB :=
  match requireUser ctxUser with
  | .error e => (.error e, st)
  | .ok user =>
    let offset := (input.page - 1) * input.pageSize
    let items :=
      ((((st.sttJobs.filter (fun j => j.userId == user)).mergeSort
        (fun a b => decide (b.createdAt ≤ a.createdAt))).drop offset).take
        input.pageSize)
    (.ok (items, items.length), st)

/-- The four status strings of `z.enum(["queued", "processing", "completed",
"failed"])` in the updateSttJob input schema. -/
def validStatuses : List String := ["queued", "processing", "completed", "failed"]

/-- Zod schema of updateSttJob (actions/index.ts lines 50-58): status must be
one of the four enum values, durationSeconds nonnegative, wordCount a
nonnegative integer; all optional. -/
def updateInputValid (i : UpdateInput) : Bool :=
  (match i.status with
    | none => true
    | some s => validStatuses.contains s) &&
  (match i.durationSeconds with
    | none => true
    | some d => decide (0 ≤ d)) &&
  (match i.wordCount with
    | none => true
    | some w => w.isInt && decide (0 ≤ w))

/-- Zod schema of one segment descriptor (actions/index.ts lines 101-108):
orderIndex a positive integer, text non-empty, optional times nonnegative,
optional confidence in [0, 1]. -/
def segmentInputValid (s : SegmentInput) : Bool :=
  s.orderIndex.isInt && decide (0 < s.orderIndex) &&
  decide (1 ≤ s.text.length) &&
  (match s.startTimeSeconds with
    | none => true
    | some t => decide (0 ≤ t)) &&
  (match s.endTimeSeconds with
    | none => true
    | some t => decide (0 ≤ t)) &&
  (match s.confidence with
    | none => true
    | some c => decide (0 ≤ c) && decide (c ≤ 1))

/-- Zod schema of addSttSegments (actions/index.ts lines 97-111): a non-empty
array (`.min(1)`) of valid segment descriptors. -/
def addSegmentsInputValid (i : AddSegmentsInput) : Bool :=
  decide (1 ≤ i.segments.length) && i.segments.all segmentInputValid

/-- Zod schema of listMySttJobs (actions/index.ts lines 183-186): positive
page, positive pageSize of at most 100 (integrality is carried by `Nat`). -/
def listInputValid (i : ListInput) : Bool :=
  decide (1 ≤ i.page) && decide (1 ≤ i.pageSize) && decide (i.pageSize ≤ 100)

/-- Outcome classes of a dispatched action: schema-validation failure
(rejected before the handler body runs) or a handler-thrown ActionError. -/
inductive ActionFailure where
  | validation
  | action (e : ActionError)
  deriving Repr, DecidableEq

/-- updateSttJob as dispatched by the framework: the input schema runs first;
the handler body only runs on schema-valid input. -/
def updateSttJobAction (ctxUser : Option String) (input : UpdateInput) (st : DB) :
    Except ActionFailure String × DB :=
  if updateInputValid input then
    match updateSttJob ctxUser input st with
    | (.error e, st') => (.error (.action e), st')
    | (.ok o, st') => (.ok o, st')
  else (.error .validation, st)

/-- addSttSegments as dispatched by the framework: schema first, then handler. -/
def addSttSegmentsAction (ctxUser : Option String) (freshId : Nat → String)
    (now : Nat) (input : AddSegmentsInput) (st : DB) :
    Except ActionFailure Nat × DB :=
  if addSegmentsInputValid input then
    match addSttSegments ctxUser freshId now input st with
    | (.error e, st') => (.error (.action e), st')
    | (.ok o, st') => (.ok o, st')
  else (.error .validation, st)

/-- One state-mutating operation of the layer, for reachability statements:
a create call or an update call (the only operations that touch job rows). -/
inductive Op where
  | create (freshId : String) (now : Nat) (input : CreateInput)
  | update (input : UpdateInput)
  deriving Repr, DecidableEq

/-- Apply one operation for the given authenticated context, keeping only the
resulting state. -/
def applyOp (ctxUser : Option String) (st : DB) : Op → DB
  | .create freshId now input => (createSttJob ctxUser freshId now input st).2
  | .update input => (updateSttJob ctxUser input st).2

/-- Apply a sequence of operations left to right. -/
def applyOps (ctxUser : Option String) (st : DB) : List Op → DB
  | [] => st
  | op :: rest => applyOps ctxUser (applyOp ctxUser st op) rest

/-- An operation that never supplies an errorMessage field. -/
def opOmitsErrorMessage : Op → Bool
  | .create _ _ _ => true
  | .update i => i.errorMessage == none

/-- A sample job owned by "alice", with some result fields already set, used
to instantiate theorems at concrete inputs. -/
def aliceJob : Job :=
  { id := "job1"
    userId := "alice"
    inputAudioUrl := "https://x/a.mp3"
    transcriptText := some "hello"
    durationSeconds := some 3
    status := some "queued"
    createdAt := 5 }

/-- C3: with no authenticated user in the request context, every one of the
five operations fails with the UNAUTHORIZED error and leaves the database
state unchanged; in the embedding the handler returns before the ownership
lookup and before any table is read or written. -/
theorem unauthorized_rejects_all_operations
    (cin : CreateInput) (uin : UpdateInput) (ain : AddSegmentsInput)
    (gin : GetInput) (lin : ListInput) (fid : String) (fids : Nat → String)
    (now : Nat) (st : DB) :
    createSttJob none fid now cin st = (.error unauthorizedError, st) ∧
    updateSttJob none uin st = (.error unauthorizedError, st) ∧
    addSttSegments none fids now ain st = (.error unauthorizedError, st) ∧
    getSttJobWithSegments none gin st = (.error unauthorizedError, st) ∧
    listMySttJobs none lin st = (.error unauthorizedError, st) :=
  ⟨rfl, rfl, rfl, rfl, rfl⟩

/-- C1: when no job row has both the requested id and the requesting user as
owner — in particular when the id exists but belongs to another user — both
updateSttJob and getSttJobWithSegments fail with the NOT_FOUND error and the
state is unchanged. -/
theorem notFound_when_missing_or_unowned (u : String) (uin : UpdateInput)
    (gin : GetInput) (st : DB)
    (hu : ∀ j ∈ st.sttJobs, ¬(j.id = uin.id ∧ j.userId = u))
    (hg : ∀ j ∈ st.sttJobs, ¬(j.id = gin.id ∧ j.userId = u)) :
    updateSttJob (some u) uin st = (.error notFoundError, st) ∧
    getSttJobWithSegments (some u) gin st = (.error notFoundError, st) := by
  have hfu : findOwnedJob st uin.id u = none := by
    simp only [findOwnedJob, List.find?_eq_none]
    intro j hj hcontra
    simp only [Bool.and_eq_true, beq_iff_eq] at hcontra
    exact hu j hj hcontra
  have hfg : findOwnedJob st gin.id u = none := by
    simp only [findOwnedJob, List.find?_eq_none]
    intro j hj hcontra
    simp only [Bool.and_eq_true, beq_iff_eq] at hcontra
    exact hg j hj hcontra
  constructor
  · simp [updateSttJob, requireUser, hfu]
  · simp [getSttJobWithSegments, requireUser, hfg]

/-- Witness for C1: "bob" requests "alice"'s job "job1" (the id exists) and
gets NOT_FOUND from both operations, with the state untouched. -/
theorem notFound_when_missing_or_unowned_witness :
    updateSttJob (some "bob") { id := "job1" } ⟨[aliceJob], []⟩ =
      (.error notFoundError, ⟨[aliceJob], []⟩) ∧
    getSttJobWithSegments (some "bob") ⟨"job1"⟩ ⟨[aliceJob], []⟩ =
      (.error notFoundError, ⟨[aliceJob], []⟩) :=
  notFound_when_missing_or_unowned "bob" { id := "job1" } ⟨"job1"⟩
    ⟨[aliceJob], []⟩ (by decide) (by decide)

/-- C4: for every create request by an authenticated user, exactly one new
job row is appended; it is owned by the requesting user, has status
"queued", all five result fields empty, the freshly generated id — which is
exactly the returned value — and the segments table is unchanged. -/
theorem createSttJob_inserts_queued_job (u fid : String) (now : Nat)
    (i : CreateInput) (st : DB) :
    ∃ j : Job,
      createSttJob (some u) fid now i st =
        (.ok fid, { sttJobs := st.sttJobs ++ [j], sttSegments := st.sttSegments }) ∧
      j.id = fid ∧ j.userId = u ∧ j.status = some "queued" ∧
      j.transcriptText = none ∧ j.durationSeconds = none ∧ j.wordCount = none ∧
      j.completedAt = none ∧ j.errorMessage = none :=
  ⟨_, rfl, rfl, rfl, rfl, rfl, rfl, rfl, rfl, rfl⟩

/-- Shape of a successful update: the returned id and the row-mapped state. -/
theorem updateSttJob_found (u : String) (i : UpdateInput) (st : DB) (job : Job)
    (hfind : findOwnedJob st i.id u = some job) :
    updateSttJob (some u) i st =
      (.ok job.id,
        { st with
          sttJobs := st.sttJobs.map
            (fun j => if j.id == job.id then setJobFields (fieldsToUpdate i job) j
              else j) }) := by
  simp [updateSttJob, requireUser, hfind]

/-- C2: update is a merge: on a successful update of an owned job, every one
of the six updatable fields that the input does not supply keeps the job's
current value in the updated row (so updating only the status leaves every
previously set result field intact). -/
theorem updateSttJob_merges_omitted_fields (u : String) (i : UpdateInput)
    (st : DB) (job : Job)
    (hfind : findOwnedJob st i.id u = some job) :
    ∃ st',
      updateSttJob (some u) i st = (.ok job.id, st') ∧
      st'.sttSegments = st.sttSegments ∧
      ∀ j' ∈ st'.sttJobs, j'.id = job.id →
        (i.status = none → j'.status = job.status) ∧
        (i.transcriptText = none → j'.transcriptText = job.transcriptText) ∧
        (i.errorMessage = none → j'.errorMessage = job.errorMessage) ∧
        (i.durationSeconds = none → j'.durationSeconds = job.durationSeconds) ∧
        (i.wordCount = none → j'.wordCount = job.wordCount) ∧
        (i.completedAt = none → j'.completedAt = job.completedAt) := by
  refine ⟨_, updateSttJob_found u i st job hfind, rfl, ?_⟩
  intro j' hj' hid
  rcases List.mem_map.1 hj' with ⟨j0, hj0, rfl⟩
  cases hb : (j0.id == job.id) with
  | true =>
    refine ⟨fun hn => ?_, fun hn => ?_, fun hn => ?_, fun hn => ?_, fun hn => ?_,
      fun hn => ?_⟩ <;>
      simp [hb, setJobFields, fieldsToUpdate, hn]
  | false =>
    exfalso
    rw [hb] at hid
    simp only [Bool.false_eq_true, if_false] at hid
    exact absurd (beq_iff_eq.mpr hid) (by simp [hb])

/-- Witness for C2: updating "alice"'s job with only a status supplied keeps
the previously set transcript and duration in the updated row. -/
theorem updateSttJob_merges_omitted_fields_witness :
    ∃ st',
      updateSttJob (some "alice") { id := "job1", status := some "processing" }
          ⟨[aliceJob], []⟩ = (.ok aliceJob.id, st') ∧
      st'.sttSegments = ([] : List Segment) ∧
      ∀ j' ∈ st'.sttJobs, j'.id = aliceJob.id →
        ((some "processing" : Option String) = none → j'.status = aliceJob.status) ∧
        ((none : Option String) = none → j'.transcriptText = aliceJob.transcriptText) ∧
        ((none : Option String) = none → j'.errorMessage = aliceJob.errorMessage) ∧
        ((none : Option Rat) = none → j'.durationSeconds = aliceJob.durationSeconds) ∧
        ((none : Option Rat) = none → j'.wordCount = aliceJob.wordCount) ∧
        ((none : Option Nat) = none → j'.completedAt = aliceJob.completedAt) :=
  updateSttJob_merges_omitted_fields "alice"
    { id := "job1", status := some "processing" } ⟨[aliceJob], []⟩ aliceJob
    (by decide)

/-- C10: a successful update touches nothing but the six updatable columns of
rows with the target id: for every job row, id, userId, inputAudioUrl,
audioFormat, language, modelName and createdAt are unchanged; rows with a
different id are entirely unchanged; and the segments table is unchanged. -/
theorem updateSttJob_frame (u : String) (i : UpdateInput) (st : DB) (job : Job)
    (hfind : findOwnedJob st i.id u = some job) :
    ∃ st',
      updateSttJob (some u) i st = (.ok job.id, st') ∧
      st'.sttSegments = st.sttSegments ∧
      List.Forall₂ (fun j j' =>
        j'.id = j.id ∧ j'.userId = j.userId ∧ j'.inputAudioUrl = j.inputAudioUrl ∧
        j'.audioFormat = j.audioFormat ∧ j'.language = j.language ∧
        j'.modelName = j.modelName ∧ j'.createdAt = j.createdAt ∧
        (j.id ≠ job.id → j' = j)) st.sttJobs st'.sttJobs := by
  refine ⟨_, updateSttJob_found u i st job hfind, rfl, ?_⟩
  refine List.forall₂_map_right_iff.mpr (List.forall₂_same.mpr ?_)
  intro j hj
  cases hb : (j.id == job.id) with
  | true =>
    refine ⟨?_, ?_, ?_, ?_, ?_, ?_, ?_, fun hne => absurd (beq_iff_eq.mp hb) hne⟩ <;>
      simp [hb, setJobFields]
  | false =>
    refine ⟨?_, ?_, ?_, ?_, ?_, ?_, ?_, fun _ => ?_⟩ <;> simp [hb]

/-- Witness for C10: updating "alice"'s job leaves the identity and input
columns of every row and the whole segments table unchanged. -/
theorem updateSttJob_frame_witness :
    ∃ st',
      updateSttJob (some "alice") { id := "job1", status := some "failed" }
          ⟨[aliceJob], []⟩ = (.ok aliceJob.id, st') ∧
      st'.sttSegments = ([] : List Segment) ∧
      List.Forall₂ (fun j j' =>
        j'.id = j.id ∧ j'.userId = j.userId ∧ j'.inputAudioUrl = j.inputAudioUrl ∧
        j'.audioFormat = j.audioFormat ∧ j'.language = j.language ∧
        j'.modelName = j.modelName ∧ j'.createdAt = j.createdAt ∧
        (j.id ≠ aliceJob.id → j' = j)) [aliceJob] st'.sttJobs :=
  updateSttJob_frame "alice" { id := "job1", status := some "failed" }
    ⟨[aliceJob], []⟩ aliceJob (by decide)

/-- The segment comparison used by the get handler is transitive. -/
theorem segLe_trans : ∀ a b c : Segment,
    decide (a.orderIndex ≤ b.orderIndex) = true →
    decide (b.orderIndex ≤ c.orderIndex) = true →
    decide (a.orderIndex ≤ c.orderIndex) = true := by
  intro a b c hab hbc
  exact decide_eq_true (le_trans (of_decide_eq_true hab) (of_decide_eq_true hbc))

/-- The segment comparison used by the get handler is total. -/
theorem segLe_total : ∀ a b : Segment,
    (decide (a.orderIndex ≤ b.orderIndex) ||
      decide (b.orderIndex ≤ a.orderIndex)) = true := by
  intro a b
  rcases le_total a.orderIndex b.orderIndex with h | h
  · simp [decide_eq_true h]
  · simp [decide_eq_true h]

/-- C5: for an owned job, getSttJobWithSegments returns, beside the job, a
permutation of exactly the segment rows whose jobId is the job's id, sorted
ascending by orderIndex, and performs no state change. -/
theorem getSttJobWithSegments_sorted (u : String) (gin : GetInput) (st : DB)
    (job : Job) (hfind : findOwnedJob st gin.id u = some job) :
    ∃ segs,
      getSttJobWithSegments (some u) gin st = (.ok (job, segs), st) ∧
      segs.Perm (st.sttSegments.filter (fun s => s.jobId == job.id)) ∧
      segs.Pairwise (fun a b => a.orderIndex ≤ b.orderIndex) := by
  refine ⟨(st.sttSegments.filter (fun s => s.jobId == job.id)).mergeSort
      (fun a b => decide (a.orderIndex ≤ b.orderIndex)), ?_, ?_, ?_⟩
  · simp [getSttJobWithSegments, requireUser, hfind]
  · exact List.mergeSort_perm _ _
  · exact (List.sorted_mergeSort segLe_trans segLe_total _).imp
      (fun h => of_decide_eq_true h)

/-- First segment of "alice"'s job, inserted second in the table. -/
def segOne : Segment := { id := "s1", jobId := "job1", orderIndex := 1, text := "hello" }

/-- Second segment of "alice"'s job, inserted first in the table. -/
def segTwo : Segment := { id := "s2", jobId := "job1", orderIndex := 2, text := "world" }

/-- Witness for C5: with the two segments stored out of order, the returned
list is a sorted permutation of exactly the job's segments. -/
theorem getSttJobWithSegments_sorted_witness :
    ∃ segs,
      getSttJobWithSegments (some "alice") ⟨"job1"⟩ ⟨[aliceJob], [segTwo, segOne]⟩ =
        (.ok (aliceJob, segs), ⟨[aliceJob], [segTwo, segOne]⟩) ∧
      segs.Perm ([segTwo, segOne].filter (fun s => s.jobId == aliceJob.id)) ∧
      segs.Pairwise (fun a b => a.orderIndex ≤ b.orderIndex) :=
  getSttJobWithSegments_sorted "alice" ⟨"job1"⟩ ⟨[aliceJob], [segTwo, segOne]⟩
    aliceJob (by decide)

/-- The job comparison used by the list handler is transitive. -/
theorem jobDesc_trans : ∀ a b c : Job,
    decide (b.createdAt ≤ a.createdAt) = true →
    decide (c.createdAt ≤ b.createdAt) = true →
    decide (c.createdAt ≤ a.createdAt) = true := by
  intro a b c hab hbc
  exact decide_eq_true (le_trans (of_decide_eq_true hbc) (of_decide_eq_true hab))

/-- The job comparison used by the list handler is total. -/
theorem jobDesc_total : ∀ a b : Job,
    (decide (b.createdAt ≤ a.createdAt) ||
      decide (a.createdAt ≤ b.createdAt)) = true := by
  intro a b
  rcases le_total b.createdAt a.createdAt with h | h
  · simp [decide_eq_true h]
  · simp [decide_eq_true h]

/-- C6: for a schema-valid page request, listMySttJobs returns the page
obtained by skipping (page-1)*pageSize rows of the requesting user's jobs
sorted by createdAt descending and taking pageSize rows; every returned job
belongs to the requesting user, the page is newest-first, holds at most
pageSize (≤ 100) items, and the returned count is the page length. -/
theorem listMySttJobs_pages_own_jobs (u : String) (lin : ListInput) (st : DB)
    (hvalid : listInputValid lin = true) :
    ∃ items,
      listMySttJobs (some u) lin st = (.ok (items, items.length), st) ∧
      items = (((st.sttJobs.filter (fun j => j.userId == u)).mergeSort
          (fun a b => decide (b.createdAt ≤ a.createdAt))).drop
          ((lin.page - 1) * lin.pageSize)).take lin.pageSize ∧
      (∀ j ∈ items, j.userId = u) ∧
      items.Pairwise (fun a b => b.createdAt ≤ a.createdAt) ∧
      items.length ≤ lin.pageSize ∧ lin.pageSize ≤ 100 := by
  refine ⟨(((st.sttJobs.filter (fun j => j.userId == u)).mergeSort
      (fun a b => decide (b.createdAt ≤ a.createdAt))).drop
      ((lin.page - 1) * lin.pageSize)).take lin.pageSize, ?_, rfl, ?_, ?_, ?_, ?_⟩
  · simp [listMySttJobs, requireUser]
  · intro j hj
    have h1 : j ∈ (st.sttJobs.filter (fun j => j.userId == u)).mergeSort
        (fun a b => decide (b.createdAt ≤ a.createdAt)) :=
      (List.drop_sublist _ _).subset ((List.take_sublist _ _).subset hj)
    have h2 := List.mem_mergeSort.mp h1
    exact beq_iff_eq.mp (List.mem_filter.mp h2).2
  · have hsorted := (List.sorted_mergeSort jobDesc_trans jobDesc_total
      (st.sttJobs.filter (fun j => j.userId == u))).imp
      (fun h => of_decide_eq_true h)
    exact hsorted.sublist ((List.take_sublist _ _).trans (List.drop_sublist _ _))
  · exact List.length_take_le _ _
  · simp only [listInputValid, Bool.and_eq_true, decide_eq_true_eq] at hvalid
    exact hvalid.2

/-- A job owned by "bob", newer than "alice"'s job. -/
def bobJob : Job :=
  { id := "job2", userId := "bob", inputAudioUrl := "https://x/b.mp3", createdAt := 9 }

/-- Witness for C6: listing "alice"'s jobs over a table that also holds a
job of "bob" returns only "alice"'s jobs, at most 20 of them, with the count
equal to the page length. -/
theorem listMySttJobs_pages_own_jobs_witness :
    ∃ items,
      listMySttJobs (some "alice") ⟨1, 20⟩ ⟨[aliceJob, bobJob], []⟩ =
        (.ok (items, items.length), ⟨[aliceJob, bobJob], []⟩) ∧
      items = ((([aliceJob, bobJob].filter (fun j => j.userId == "alice")).mergeSort
          (fun a b => decide (b.createdAt ≤ a.createdAt))).drop
          ((1 - 1) * 20)).take 20 ∧
      (∀ j ∈ items, j.userId = "alice") ∧
      items.Pairwise (fun a b => b.createdAt ≤ a.createdAt) ∧
      items.length ≤ 20 ∧ 20 ≤ 100 :=
  listMySttJobs_pages_own_jobs "alice" ⟨1, 20⟩ ⟨[aliceJob, bobJob], []⟩ (by decide)

/-- mkSegmentRows builds one row per descriptor. -/
theorem mkSegmentRows_length (f : Nat → String) (jobId : String) (now : Nat)
    (n : Nat) (l : List SegmentInput) :
    (mkSegmentRows f jobId now n l).length = l.length := by
  induction l generalizing n with
  | nil => rfl
  | cons s rest ih => simp [mkSegmentRows, ih]

/-- mkSegmentRows copies each descriptor's fields verbatim into its row and
stamps the target job id. -/
theorem mkSegmentRows_copies (f : Nat → String) (jobId : String) (now : Nat)
    (n : Nat) (l : List SegmentInput) :
    List.Forall₂ (fun (s : SegmentInput) (r : Segment) =>
      r.jobId = jobId ∧ r.orderIndex = s.orderIndex ∧ r.text = s.text ∧
      r.startTimeSeconds = s.startTimeSeconds ∧
      r.endTimeSeconds = s.endTimeSeconds ∧
      r.speakerLabel = s.speakerLabel ∧ r.confidence = s.confidence)
      l (mkSegmentRows f jobId now n l) := by
  induction l generalizing n with
  | nil => exact List.Forall₂.nil
  | cons s rest ih =>
    exact List.Forall₂.cons ⟨rfl, rfl, rfl, rfl, rfl, rfl, rfl⟩ (ih (n + 1))

/-- mkSegmentRows gives row k the fresh identifier of index n + k. -/
theorem mkSegmentRows_get_id (f : Nat → String) (jobId : String) (now : Nat) :
    ∀ (l : List SegmentInput) (n k : Nat)
      (hk : k < (mkSegmentRows f jobId now n l).length),
      ((mkSegmentRows f jobId now n l).get ⟨k, hk⟩).id = f (n + k) := by
  intro l
  induction l with
  | nil => intro n k hk; exact absurd hk (by simp [mkSegmentRows])
  | cons s rest ih =>
    intro n k hk
    cases k with
    | zero => rfl
    | succ k =>
      have h := ih (n + 1) k (by
        have := hk
        simpa [mkSegmentRows] using this)
      have harith : n + 1 + k = n + (k + 1) := by omega
      rw [← harith]
      exact h

/-- C8: for an owned job and a (schema-valid) non-empty descriptor list,
addSttSegments appends exactly one row per descriptor — each carrying a
fresh identifier, the target job id, and the descriptor's fields verbatim —
and returns the number of descriptors. -/
theorem addSttSegments_inserts_all (u : String) (fid : Nat → String) (now : Nat)
    (i : AddSegmentsInput) (st : DB) (job : Job)
    (hfind : findOwnedJob st i.jobId u = some job) :
    ∃ rows,
      addSttSegments (some u) fid now i st =
        (.ok i.segments.length,
          { st with sttSegments := st.sttSegments ++ rows }) ∧
      rows.length = i.segments.length ∧
      List.Forall₂ (fun (s : SegmentInput) (r : Segment) =>
        r.jobId = i.jobId ∧ r.orderIndex = s.orderIndex ∧ r.text = s.text ∧
        r.startTimeSeconds = s.startTimeSeconds ∧
        r.endTimeSeconds = s.endTimeSeconds ∧
        r.speakerLabel = s.speakerLabel ∧ r.confidence = s.confidence)
        i.segments rows ∧
      (∀ (k : Nat) (hk : k < rows.length), (rows.get ⟨k, hk⟩).id = fid k) := by
  refine ⟨mkSegmentRows fid i.jobId now 0 i.segments, ?_,
    mkSegmentRows_length fid i.jobId now 0 i.segments,
    mkSegmentRows_copies fid i.jobId now 0 i.segments, ?_⟩
  · simp [addSttSegments, requireUser, hfind, mkSegmentRows_length]
  · intro k hk
    have h := mkSegmentRows_get_id fid i.jobId now i.segments 0 k hk
    simpa using h

/-- Witness for C8: appending two descriptors to "alice"'s job inserts two
rows with copied fields and returns the count 2. -/
theorem addSttSegments_inserts_all_witness :
    ∃ rows,
      addSttSegments (some "alice") (fun k => toString k) 7
          { jobId := "job1"
            segments := [{ orderIndex := 2, text := "world" },
              { orderIndex := 1, text := "hello" }] } ⟨[aliceJob], []⟩ =
        (.ok ([{ orderIndex := 2, text := "world" },
            { orderIndex := 1, text := "hello" }] : List SegmentInput).length,
          { sttJobs := [aliceJob], sttSegments := ([] : List Segment) ++ rows }) ∧
      rows.length = ([{ orderIndex := 2, text := "world" },
        { orderIndex := 1, text := "hello" }] : List SegmentInput).length ∧
      List.Forall₂ (fun (s : SegmentInput) (r : Segment) =>
        r.jobId = "job1" ∧ r.orderIndex = s.orderIndex ∧ r.text = s.text ∧
        r.startTimeSeconds = s.startTimeSeconds ∧
        r.endTimeSeconds = s.endTimeSeconds ∧
        r.speakerLabel = s.speakerLabel ∧ r.confidence = s.confidence)
        [{ orderIndex := 2, text := "world" }, { orderIndex := 1, text := "hello" }]
        rows ∧
      (∀ (k : Nat) (hk : k < rows.length),
        (rows.get ⟨k, hk⟩).id = toString k) :=
  addSttSegments_inserts_all "alice" (fun k => toString k) 7
    { jobId := "job1"
      segments := [{ orderIndex := 2, text := "world" },
        { orderIndex := 1, text := "hello" }] } ⟨[aliceJob], []⟩ aliceJob
    (by decide)

/-- C7: schema validation rejects, before the handler body runs and with no
state change: an update whose status lies outside the four-value enum, and an
append whose segment list is empty or contains a descriptor with empty text,
a non-positive or non-integer order index, or a confidence outside [0, 1]. -/
theorem schema_rejects_invalid_inputs (ctx : Option String) (fid : Nat → String)
    (now : Nat) (ui : UpdateInput) (ai : AddSegmentsInput) (stu sta : DB)
    (hu : ∃ s, ui.status = some s ∧ s ∉ validStatuses)
    (ha : ai.segments = [] ∨ ∃ seg ∈ ai.segments,
      seg.text = "" ∨ seg.orderIndex ≤ 0 ∨ seg.orderIndex.isInt = false ∨
      ∃ c, seg.confidence = some c ∧ (c < 0 ∨ 1 < c)) :
    updateSttJobAction ctx ui stu = (.error .validation, stu) ∧
    addSttSegmentsAction ctx fid now ai sta = (.error .validation, sta) := by
  have h1 : updateInputValid ui = false := by
    rcases hu with ⟨s, hs, hmem⟩
    have hc : validStatuses.contains s = false := by
      apply Bool.eq_false_iff.mpr
      intro hx
      rcases List.contains_iff_exists_mem_beq.mp hx with ⟨a, ha', hbeq⟩
      exact hmem (beq_iff_eq.mp hbeq ▸ ha')
    simp only [updateInputValid, hs, hc, Bool.false_and]
  have h2 : addSegmentsInputValid ai = false := by
    rcases ha with hnil | ⟨seg, hmem, hbad⟩
    · simp [addSegmentsInputValid, hnil]
    · have hseg : segmentInputValid seg = false := by
        rcases hbad with ht | hle | hint | ⟨c, hc, hlt⟩
        · have hlen : decide (1 ≤ seg.text.length) = false := by rw [ht]; rfl
          simp [segmentInputValid, hlen]
        · have h0 : decide ((0 : Rat) < seg.orderIndex) = false :=
            decide_eq_false (not_lt.mpr hle)
          simp [segmentInputValid, h0]
        · simp [segmentInputValid, hint]
        · rcases hlt with hneg | hgt
          · have h0 : decide ((0 : Rat) ≤ c) = false :=
              decide_eq_false (not_le.mpr hneg)
            simp [segmentInputValid, hc, h0]
          · have h0 : decide (c ≤ (1 : Rat)) = false :=
              decide_eq_false (not_le.mpr hgt)
            simp [segmentInputValid, hc, h0]
      have hall : ai.segments.all segmentInputValid = false :=
        List.all_eq_false.mpr ⟨seg, hmem, by simp [hseg]⟩
      simp [addSegmentsInputValid, hall]
  constructor
  · simp [updateSttJobAction, h1]
  · simp [addSttSegmentsAction, h2]

/-- Witness for C7: an out-of-enum status and an empty segment list are both
rejected as validation failures with the state untouched. -/
theorem schema_rejects_invalid_inputs_witness :
    updateSttJobAction (some "alice") { id := "job1", status := some "bogus" }
        ⟨[aliceJob], []⟩ = (.error .validation, ⟨[aliceJob], []⟩) ∧
    addSttSegmentsAction (some "alice") (fun k => toString k) 7
        { jobId := "job1", segments := [] } ⟨[aliceJob], []⟩ =
      (.error .validation, ⟨[aliceJob], []⟩) :=
  schema_rejects_invalid_inputs (some "alice") (fun k => toString k) 7
    { id := "job1", status := some "bogus" } { jobId := "job1", segments := [] }
    ⟨[aliceJob], []⟩ ⟨[aliceJob], []⟩ ⟨"bogus", rfl, by decide⟩ (Or.inl rfl)

/-- A trace that creates a job and then updates it supplying only an
errorMessage, leaving the status at "queued". -/
def failTrace : List Op :=
  [.create "job1" 0 { inputAudioUrl := "https://x/a.mp3" },
    .update { id := "job1", errorMessage := some "boom" }]

/-- A trace whose update supplies only a status and no errorMessage. -/
def cleanTrace : List Op :=
  [.create "job1" 0 { inputAudioUrl := "https://x/a.mp3" },
    .update { id := "job1", status := some "processing" }]

/-- Counterexample to C9: the update handler accepts an errorMessage without
any status restriction, so a create followed by an update supplying only
errorMessage reaches a job whose errorMessage is set while its status is
still "queued", not "failed". -/
theorem errorMessage_set_while_not_failed :
    ∃ j ∈ (applyOps (some "alice") ⟨[], []⟩ failTrace).sttJobs,
      j.errorMessage = some "boom" ∧ j.status = some "queued" ∧
      ¬j.status = some "failed" := by
  decide

/-- C9 (amended): errorMessage is only ever set by an update that explicitly
supplies it — starting from jobs with empty errorMessage, any sequence of
create/update operations none of which supplies errorMessage leaves every
job's errorMessage empty; the code does not tie errorMessage to the
"failed" status. -/
theorem errorMessage_only_from_explicit_update (u : String) (ops : List Op)
    (st : DB) (hst : ∀ j ∈ st.sttJobs, j.errorMessage = none)
    (hops : ops.all opOmitsErrorMessage = true) :
    ∀ j ∈ (applyOps (some u) st ops).sttJobs, j.errorMessage = none := by
  induction ops generalizing st with
  | nil => exact hst
  | cons op rest ih =>
    rw [List.all_cons, Bool.and_eq_true] at hops
    refine ih (applyOp (some u) st op) ?_ hops.2
    intro j hj
    cases op with
    | create fid now cin =>
      simp [applyOp, createSttJob, requireUser] at hj
      rcases hj with h | h
      · exact hst j h
      · rw [h]
    | update uin =>
      have hnone : uin.errorMessage = none := by
        simpa [opOmitsErrorMessage] using hops.1
      cases hfind : findOwnedJob st uin.id u with
      | none =>
        simp [applyOp, updateSttJob, requireUser, hfind] at hj
        exact hst j hj
      | some job =>
        have hjob : job.errorMessage = none :=
          hst job (List.mem_of_find?_eq_some hfind)
        simp [applyOp, updateSttJob, requireUser, hfind] at hj
        rcases hj with ⟨j0, hj0, rfl⟩
        by_cases hb : j0.id = job.id
        · simp [hb, setJobFields, fieldsToUpdate, hnone, hjob]
        · simp [hb]
          exact hst j0 hj0

/-- Witness for C9 (amended): a create followed by a status-only update
leaves every job's errorMessage empty. -/
theorem errorMessage_only_from_explicit_update_witness :
    (applyOps (some "alice") ⟨[], []⟩ cleanTrace).sttJobs.all
      (fun j => j.errorMessage == none) = true := by
  have h := errorMessage_only_from_explicit_update "alice" cleanTrace ⟨[], []⟩
    (by decide) (by decide)
  exact List.all_eq_true.mpr (fun j hj => beq_iff_eq.mpr (h j hj))

end STT
